import Mathlib

/-!
Verification of the sali-bot core: the Super Bowl event configuration,
the text formatters, the team-name normalization utilities, and the
repository drift guard (`scripts/guard-superbowl-strings.js`) together
with its shell/ripgrep twin (`scripts/guard-superbowl-strings.sh`).

The JavaScript/TypeScript sources are shallowly embedded: strings are
Lean `String`s manipulated through their underlying `List Char`, the
file system is an explicit tree value, and the guard's fallible
traversal returns `Except`.
-/

set_option maxRecDepth 8192

namespace SaliBot

/-! ## JavaScript string primitives

The source relies on `String.prototype.trim`, `String.prototype.toLowerCase`
and `replace(/\s+/g, " ")`.  JavaScript's `\s` (and `trim`) whitespace class
is the fixed set of code points below. -/

/-- The character class `\s` of JavaScript regular expressions, which is also
the set of characters removed by `String.prototype.trim`: space, tab, LF, VT,
FF, CR, NBSP, Ogham space mark, the U+2000–U+200A range, LS, PS, narrow NBSP,
medium mathematical space, ideographic space and BOM. -/
def jsWhitespace (c : Char) : Bool :=
  c == '\x20' || c == '\t' || c == '\n' || c == '\u000b' || c == '\u000c' ||
  c == '\r' || c == '\u00a0' || c == '\u1680' ||
  (0x2000 ≤ c.toNat && c.toNat ≤ 0x200a) ||
  c == '\u2028' || c == '\u2029' || c == '\u202f' || c == '\u205f' ||
  c == '\u3000' || c == '\ufeff'

/-- Model of `String.prototype.trim` on the underlying character list: drop the
leading run of whitespace, then the trailing run. -/
def jsTrimList (l : List Char) : List Char :=
  ((l.dropWhile jsWhitespace).reverse.dropWhile jsWhitespace).reverse

/-- Model of `String.prototype.trim`. -/
def jsTrim (s : String) : String := String.mk (jsTrimList s.data)

/-- One pass of `replace(/\s+/g, " ")`: the flag records whether the previous
character belonged to a whitespace run that has already emitted its single
replacement space. -/
def collapseAux : Bool → List Char → List Char
  | _, [] => []
  | prevWS, c :: cs =>
    if jsWhitespace c then
      if prevWS then collapseAux true cs
      else '\x20' :: collapseAux true cs
    else c :: collapseAux false cs

/-- Model of `replace(/\s+/g, " ")`: every maximal run of whitespace becomes one
space. -/
def collapseWS (l : List Char) : List Char := collapseAux false l

/-- Model of `String.prototype.toLowerCase`, character-wise.  The repository only ever
lower-cases ASCII data (team names, file extensions), where JavaScript's
Unicode case mapping and `Char.toLower` agree; none of the theorems below
depend on how non-ASCII characters are mapped, only on lower-casing being a
function of the string. -/
def jsToLower (s : String) : String := String.mk (s.data.map Char.toLower)

/-! ## `src/utils/normalizeTeam.ts` -/

/-- The function `normalizeTeamName(name)`: `name.replace(/\s+/g, " ").trim()`. -/
def normalizeTeamName (s : String) : String :=
  String.mk (jsTrimList (collapseWS s.data))

/-- The function `sameTeamName(a, b)`:
`normalizeTeamName(a).toLowerCase() === normalizeTeamName(b).toLowerCase()`. -/
def sameTeamName (a b : String) : Bool :=
  jsToLower (normalizeTeamName a) == jsToLower (normalizeTeamName b)

/-! ## `src/config/superbowl.ts` -/

/-- The `Team` record type. -/
structure Team where
  name : String
  city : String
  abbreviation : String
  conference : Option String
deriving Repr, DecidableEq

/-- The `teams` field of the `SUPERBOWL` constant. -/
structure SuperbowlTeams where
  home : Team
  away : Team
deriving Repr, DecidableEq

/-- The shape of the `SUPERBOWL` constant. -/
structure SuperbowlConfig where
  label : String
  roman : String
  teams : SuperbowlTeams
deriving Repr, DecidableEq

/-- The `SUPERBOWL` configuration constant. -/
def SUPERBOWL : SuperbowlConfig :=
  { label := "Super Bowl"
    roman := "XLIX"
    teams :=
      { home :=
          { name := "New England Patriots"
            city := "New England"
            abbreviation := "NE"
            conference := some "AFC" }
        away :=
          { name := "Seattle Seahawks"
            city := "Seattle"
            abbreviation := "SEA"
            conference := some "NFC" } } }

/-- The constant `SUPERBOWL_TEAM_NAMES`. -/
def SUPERBOWL_TEAM_NAMES : List String :=
  [SUPERBOWL.teams.home.name, SUPERBOWL.teams.away.name]

/-- The predicate `isSuperbowlTeamName(teamName)`: lower-case the trimmed candidate and
compare it against each configured team name lower-cased.  Note the source
trims but does **not** collapse internal whitespace here. -/
def isSuperbowlTeamName (teamName : String) : Bool :=
  let t := jsToLower (jsTrim teamName)
  SUPERBOWL_TEAM_NAMES.any (fun n => jsToLower n == t)

/-! ## `src/utils/formatMatchup.ts` and `src/utils/formatSuperbowl.ts` -/

/-- The `Options` parameter of `formatSuperbowlMatchup`; `none` models an
absent property, on which the source's destructuring defaults fire. -/
structure MatchupOptions where
  useAbbreviations : Option Bool := none
  separator : Option String := none
deriving Repr, DecidableEq

/-- The formatter `formatSuperbowlMatchup(opts)`. -/
def formatSuperbowlMatchup (opts : MatchupOptions) : String :=
  let ua := opts.useAbbreviations.getD false
  let sep := opts.separator.getD " vs "
  let left := if ua then SUPERBOWL.teams.home.abbreviation else SUPERBOWL.teams.home.name
  let right := if ua then SUPERBOWL.teams.away.abbreviation else SUPERBOWL.teams.away.name
  left ++ sep ++ right

/-- The formatter `formatSuperbowlEventLabel()`. -/
def formatSuperbowlEventLabel : String :=
  SUPERBOWL.label ++ " " ++ SUPERBOWL.roman

/-- The formatter `formatSuperbowlTeamsLine()`: away team first, then home team. -/
def formatSuperbowlTeamsLine : String :=
  SUPERBOWL.teams.away.name ++ " vs " ++ SUPERBOWL.teams.home.name

/-! ## The guard's denylist pattern

`scripts/guard-superbowl-strings.js` line 10:
`BAD_PATTERN = /Kansas City Chiefs|San Francisco 49ers|\bChiefs\b|\b49ers\b|superbowlTeams/`
and `BAD_PATTERN.test(line)` asks whether some alternative matches somewhere
in the line.  The three plain alternatives match as bare substrings; the two
`\b…\b` alternatives additionally require a word boundary on each side. -/

/-- JavaScript `\w` (and hence the `\b` word/non-word distinction) for a
regular expression without the `u` flag: ASCII letters, digits and
underscore. -/
def isWordChar (c : Char) : Bool := c.isAlphanum || c == '_'

/-- Whether `pat` occurs in `l` starting at position `i`. -/
def occursAt (pat l : List Char) (i : Nat) : Bool :=
  ((l.drop i).take pat.length) == pat

/-- Whether `pat` occurs somewhere in `l` (a plain regex alternative matches). -/
def containsSubL (pat l : List Char) : Bool :=
  (List.range (l.length + 1)).any (fun i => occursAt pat l i)

/-- A `\b` immediately before position `i` of `l`, for a pattern whose first
character is a word character: the preceding character is absent or not a
word character. -/
def boundaryBefore (l : List Char) (i : Nat) : Bool :=
  i == 0 || !(isWordChar (l.getD (i - 1) '\x20'))

/-- A `\b` immediately after position `j` of `l`, for a pattern whose last
character is a word character: the character at `j` is absent or not a word
character. -/
def boundaryAfter (l : List Char) (j : Nat) : Bool :=
  j == l.length || !(isWordChar (l.getD j '\x20'))

/-- Whether `\bpat\b` matches at position `i` of `l`. -/
def boundedAt (pat l : List Char) (i : Nat) : Bool :=
  occursAt pat l i && boundaryBefore l i && boundaryAfter l (i + pat.length)

/-- Whether `\bpat\b` matches somewhere in `l`. -/
def wordBoundedL (pat l : List Char) : Bool :=
  (List.range (l.length + 1)).any (fun i => boundedAt pat l i)

/-- The test `BAD_PATTERN.test` on one line (as a character list). -/
def badPatternTestL (line : List Char) : Bool :=
  containsSubL "Kansas City Chiefs".data line ||
  containsSubL "San Francisco 49ers".data line ||
  wordBoundedL "Chiefs".data line ||
  wordBoundedL "49ers".data line ||
  containsSubL "superbowlTeams".data line

/-- The test `BAD_PATTERN.test` on one line. -/
def badPatternTest (line : String) : Bool := badPatternTestL line.data

/-! ## The file-system model

The guard walks a directory tree with `fs.readdirSync` and reads files with
`fs.readFileSync`.  A tree is embedded as an `FsEntry` value; a directory
carries a `readable` flag, false meaning `readdirSync` on it throws (for
example `EACCES`).  File contents are always readable in the model — no
claim concerns unreadable files.  Path separators are POSIX `/`, so the
source's `rel.replace(/\\/g, "/")` is the identity and is not modeled. -/

/-- One node of the modeled file system. -/
inductive FsEntry where
  | file (name content : String)
  | dir (name : String) (readable : Bool) (entries : List FsEntry)

/-- The `e.name` a directory entry reports. -/
def FsEntry.name : FsEntry → String
  | .file n _ => n
  | .dir n _ _ => n

/-- The guard's `IGNORE` set. -/
def IGNORE : List String :=
  ["node_modules", ".git", "__pycache__", "kalshi_signals.db",
   "watchlist.json", "package-lock.json"]

/-- The guard's text-extension allowlist (the array literal on its
`isText` line). -/
def TEXT_EXTS : List String :=
  [".ts", ".tsx", ".js", ".jsx", ".json", ".md", ".py", ".sh", ".env.example"]

/-- Whether `pre` is a prefix of `l` — JavaScript `String.prototype.startsWith` on
character lists. -/
def startsWithList (pre l : List Char) : Bool := l.take pre.length == pre

/-- Model of JavaScript `s.startsWith(pre)`. -/
def jsStartsWith (s pre : String) : Bool := startsWithList pre.data s.data

/-- Index of the last `.` in a character list, if any. -/
def lastDotIdx (l : List Char) : Option Nat :=
  ((List.range l.length).filter (fun i => l.getD i '\x20' == '.')).getLast?

/-- The basename of a `/`-separated path: everything after the last
separator. -/
def basenameList (l : List Char) : List Char :=
  (l.reverse.takeWhile (fun c => c != '/')).reverse

/-- Node's `path.extname`: the suffix of the basename from its last dot,
or `""` when the basename has no dot, starts with its only dot (dotfiles),
or is the special name `..`. -/
def extname (p : String) : String :=
  let b := basenameList p.data
  if b == "..".data then ""
  else
    match lastDotIdx b with
    | none => ""
    | some 0 => ""
    | some i => String.mk (b.drop i)

/-- The guard's `isText` test on an already lower-cased extension. -/
def isTextExt (ext : String) : Bool := TEXT_EXTS.contains ext || ext == ""

/-- Model of `content.replace(/\r\n/g, "\n")` — each CRLF pair becomes a bare LF. -/
def stripCR : List Char → List Char
  | [] => []
  | '\r' :: '\n' :: rest => '\n' :: stripCR rest
  | c :: rest => c :: stripCR rest

/-- Model of JavaScript `split("\n")`. -/
def splitOnNL : List Char → List (List Char)
  | [] => [[]]
  | '\n' :: rest => [] :: splitOnNL rest
  | c :: rest =>
    match splitOnNL rest with
    | [] => [[c]]
    | l :: ls => (c :: l) :: ls

/-- The line list the guard scans: CRLF-normalize, then split on LF. -/
def jsLines (content : String) : List (List Char) := splitOnNL (stripCR content.data)

/-- One guard finding: relative path, 1-based line number, trimmed line
text.  The source pushes the already-formatted string
`rel + ":" + (i+1) + ":" + line.trim()`; the record keeps the three parts
and `formatHit` rebuilds exactly that string. -/
structure ScanHit where
  path : String
  lineNo : Nat
  text : String
deriving Repr, DecidableEq

/-- The string the guard pushes onto `hits` for one finding. -/
def formatHit (h : ScanHit) : String :=
  h.path ++ ":" ++ toString h.lineNo ++ ":" ++ h.text

/-- The walk callback of `guard-superbowl-strings.js` for one file: skip the
guard's own sources by prefix, skip non-text extensions, otherwise split the
content into lines and record a hit for every line matching `BAD_PATTERN`. -/
def scanFileHits (rel content : String) : List ScanHit :=
  if jsStartsWith rel "scripts/guard-superbowl-strings" then []
  else if isTextExt (jsToLower (extname rel)) then
    (jsLines content).enum.filterMap (fun p =>
      if badPatternTestL p.2 then
        some { path := rel, lineNo := p.1 + 1, text := String.mk (jsTrimList p.2) }
      else none)
  else []

mutual
/-- The traversal `walk` visiting one directory entry (already known not to be ignored):
files are handed to the callback, directories are recursed into —
`readdirSync` on an unreadable directory throws, modeled as `.error`.
Returns the visited files as (relative path, content) pairs in visit
order. -/
def walkEntry (pfx : String) : FsEntry → Except Unit (List (String × String))
  | .file n c => .ok [(pfx ++ n, c)]
  | .dir n r es => if r then walkList (pfx ++ n ++ "/") es else .error ()

/-- The traversal `walk`, looping over the entries of one directory: entries whose name is in
`IGNORE` are skipped before any directory/file dispatch. -/
def walkList (pfx : String) : List FsEntry → Except Unit (List (String × String))
  | [] => .ok []
  | e :: es => do
    let hd ← if IGNORE.contains e.name then .ok [] else walkEntry pfx e
    let tl ← walkList pfx es
    .ok (hd ++ tl)
end

/-- The guard's top-level `walk(ROOT, cb)`: `fs.existsSync` guards a missing
root (modeled as `none`), `readdirSync` throws on a file root or an
unreadable root directory. -/
def walkRoot : Option FsEntry → Except Unit (List (String × String))
  | none => .ok []
  | some (.file _ _) => .error ()
  | some (.dir _ r es) => if r then walkList "" es else .error ()

/-- The whole guard script: walk, scan every visited file, and report — exit
status 1 when any hit was collected, 0 otherwise.  An `.error` result models
the uncaught exception path (the process dies without printing the
success banner). -/
def runGuard (root : Option FsEntry) : Except Unit (List ScanHit × Nat) := do
  let files ← walkRoot root
  let hits := (files.map (fun fc => scanFileHits fc.1 fc.2)).flatten
  .ok (hits, if hits.length > 0 then 1 else 0)

/-- The lines the guard prints to stderr when it fails. -/
def guardErrorLines (hits : List ScanHit) : List String := hits.map formatHit

/-! ## The shell twin `scripts/guard-superbowl-strings.sh`

The script runs `BAD=$(rg -n "…same pattern…" . || true)` then exit 1 iff `BAD` is
non-empty.  ripgrep applies the same pattern line by line but with its own
default file filtering: hidden entries are skipped, unreadable directories
produce a warning and are skipped without aborting, and there is no
self-exclusion, no `IGNORE` set and no extension allowlist.  (`.gitignore`
handling and binary detection are not modeled; the trees considered contain
neither `.gitignore` files — which would be hidden anyway — nor binary
content.)  ripgrep reports the raw, untrimmed line text. -/

mutual
/-- ripgrep's traversal of one entry. -/
def rgWalkEntry (pfx : String) : FsEntry → List (String × String)
  | .file n c => [(pfx ++ n, c)]
  | .dir n r es => if r then rgWalkList (pfx ++ n ++ "/") es else []

/-- ripgrep's loop over one directory's entries: hidden names (leading dot)
are skipped, nothing else is. -/
def rgWalkList (pfx : String) : List FsEntry → List (String × String)
  | [] => []
  | e :: es =>
    (if jsStartsWith e.name "." then [] else rgWalkEntry pfx e) ++ rgWalkList pfx es
end

/-- ripgrep invoked on the root `.`: a missing root is an error that prints
no matches (swallowed by `|| true`), a file root is scanned directly. -/
def rgWalkRoot : Option FsEntry → List (String × String)
  | none => []
  | some (.file n c) => [(n, c)]
  | some (.dir _ r es) => if r then rgWalkList "" es else []

/-- ripgrep's per-file matching: raw lines, same pattern, no CRLF
normalization, untrimmed text. -/
def rgScanFile (rel content : String) : List ScanHit :=
  (splitOnNL content.data).enum.filterMap (fun p =>
    if badPatternTestL p.2 then
      some { path := rel, lineNo := p.1 + 1, text := String.mk p.2 }
    else none)

/-- The whole shell guard: `rg` over the tree, exit 1 iff any match was
printed, else the success banner and exit 0. -/
def shGuard (root : Option FsEntry) : List ScanHit × Nat :=
  let hits := ((rgWalkRoot root).map (fun fc => rgScanFile fc.1 fc.2)).flatten
  (hits, if hits.length > 0 then 1 else 0)

/-- The location of a finding, forgetting the reported text (the JS guard
trims it, ripgrep does not). -/
def ScanHit.loc (h : ScanHit) : String × Nat := (h.path, h.lineNo)

mutual
/-- A tree on which the two guards' file filters cannot disagree: no entry is
named in `IGNORE`, none is hidden, every directory is readable, every file
has a text-allowlisted extension, is not under the guard's self-exclusion
prefix, and its content is free of carriage returns. -/
def plainEntry (pfx : String) : FsEntry → Bool
  | .file n c =>
    !(IGNORE.contains n) && !(jsStartsWith n ".") &&
    isTextExt (jsToLower (extname (pfx ++ n))) &&
    !(jsStartsWith (pfx ++ n) "scripts/guard-superbowl-strings") &&
    !(c.data.contains '\r')
  | .dir n r es =>
    !(IGNORE.contains n) && !(jsStartsWith n ".") && r &&
    plainList (pfx ++ n ++ "/") es

/-- The predicate `plainEntry` over a directory's entry list. -/
def plainList (pfx : String) : List FsEntry → Bool
  | [] => true
  | e :: es => plainEntry pfx e && plainList pfx es
end

/-- A root both guards traverse identically: absent, or a readable directory
of plain entries. -/
def plainRoot : Option FsEntry → Bool
  | none => true
  | some (.file _ _) => false
  | some (.dir _ r es) => r && plainList "" es

/-! ## Invariants of collapsed/trimmed character lists

Used to prove that `normalizeTeamName` is idempotent. -/

/-- The first character, when there is one, is not whitespace. -/
def headOK : List Char → Bool
  | [] => true
  | c :: _ => !jsWhitespace c

/-- Every whitespace character is a plain ASCII space. -/
def allSpaceWS (l : List Char) : Bool :=
  l.all (fun c => !jsWhitespace c || c == '\x20')

/-- No two adjacent whitespace characters. -/
def noAdjWS : List Char → Bool
  | c :: d :: rest => (!jsWhitespace c || !jsWhitespace d) && noAdjWS (d :: rest)
  | _ => true

end SaliBot

namespace SaliBot

/-! ## Claim theorems -/

/-- C7: for every options value `formatSuperbowlMatchup` renders
home-then-away, using full names unless `useAbbreviations` is true, with
separator `" vs "` unless overridden; default options yield
`"New England Patriots vs Seattle Seahawks"`. -/
theorem formatMatchup_spec :
    (∀ opts : MatchupOptions,
      formatSuperbowlMatchup opts =
        (if opts.useAbbreviations.getD false then SUPERBOWL.teams.home.abbreviation
         else SUPERBOWL.teams.home.name) ++
        opts.separator.getD " vs " ++
        (if opts.useAbbreviations.getD false then SUPERBOWL.teams.away.abbreviation
         else SUPERBOWL.teams.away.name)) ∧
    formatSuperbowlMatchup {} = "New England Patriots vs Seattle Seahawks" ∧
    formatSuperbowlMatchup { useAbbreviations := some true } = "NE vs SEA" ∧
    formatSuperbowlMatchup { separator := some " @ " } =
      "New England Patriots @ Seattle Seahawks" := by
  refine ⟨fun opts => ?_, by decide, by decide, by decide⟩
  unfold formatSuperbowlMatchup
  cases opts.useAbbreviations.getD false <;> simp

/-- C8: `formatSuperbowlTeamsLine` is always away-name `" vs "` home-name —
the reverse participant order of `formatSuperbowlMatchup` with default
options. -/
theorem formatTeamsLine_spec :
    formatSuperbowlTeamsLine =
      SUPERBOWL.teams.away.name ++ " vs " ++ SUPERBOWL.teams.home.name ∧
    formatSuperbowlTeamsLine = "Seattle Seahawks vs New England Patriots" ∧
    formatSuperbowlMatchup {} =
      SUPERBOWL.teams.home.name ++ " vs " ++ SUPERBOWL.teams.away.name := by
  exact ⟨rfl, by decide, rfl⟩

/-- C2 (counterexample): a candidate differing from the home team's name only
by extra internal whitespace — `sameTeamName` equates the two — is not
recognized by `isSuperbowlTeamName`, which the claim says normalizes internal
whitespace. -/
theorem isSuperbowlTeamName_whitespace_counterexample :
    sameTeamName "New  England Patriots" SUPERBOWL.teams.home.name = true ∧
    isSuperbowlTeamName "New  England Patriots" = false := by
  exact ⟨by decide, by decide⟩

/-- C2 (amended): `isSuperbowlTeamName` trims and case-folds the candidate —
without collapsing internal whitespace — and returns true iff the result
equals one of the two configured team names case-folded; any other input
gives false. -/
theorem isSuperbowlTeamName_spec :
    (∀ s, isSuperbowlTeamName s = true ↔
      (jsToLower SUPERBOWL.teams.home.name = jsToLower (jsTrim s) ∨
       jsToLower SUPERBOWL.teams.away.name = jsToLower (jsTrim s))) ∧
    isSuperbowlTeamName " new england PATRIOTS " = true ∧
    isSuperbowlTeamName "New  England Patriots" = false ∧
    isSuperbowlTeamName "Chicago Bears" = false := by
  refine ⟨fun s => ?_, by decide, by decide, by decide⟩
  unfold isSuperbowlTeamName SUPERBOWL_TEAM_NAMES
  simp [List.any_cons, beq_iff_eq]

/-- C10: `sameTeamName` is an equivalence relation: reflexive, symmetric
(as a Bool-valued function it is literally commutative) and transitive. -/
theorem sameTeamName_equivalence :
    (∀ a, sameTeamName a a = true) ∧
    (∀ a b, sameTeamName a b = sameTeamName b a) ∧
    (∀ a b c, sameTeamName a b = true → sameTeamName b c = true →
      sameTeamName a c = true) := by
  refine ⟨fun a => ?_, fun a b => ?_, fun a b c h1 h2 => ?_⟩
  · simp [sameTeamName]
  · unfold sameTeamName
    rcases eq_or_ne (jsToLower (normalizeTeamName a)) (jsToLower (normalizeTeamName b)) with h | h
    · rw [h]
    · simp [beq_eq_false_iff_ne, h, Ne.symm h]
  · unfold sameTeamName at h1 h2 ⊢
    rw [show jsToLower (normalizeTeamName a) = jsToLower (normalizeTeamName c) from
      (eq_of_beq h1).trans (eq_of_beq h2)]
    exact beq_self_eq_true _

/-- C10 (witness): transitivity applied at concrete inputs. -/
theorem sameTeamName_equivalence_witness :
    sameTeamName "Team  X" " team x " = true :=
  sameTeamName_equivalence.2.2 "Team  X" "TEAM X" " team x " (by decide) (by decide)

end SaliBot

namespace SaliBot

/-! ## Idempotence of `normalizeTeamName` -/

theorem dropWhile_headOK (l : List Char) :
    headOK (l.dropWhile jsWhitespace) = true := by
  induction l with
  | nil => rfl
  | cons c cs ih =>
    by_cases h : jsWhitespace c = true
    · simpa [List.dropWhile, h] using ih
    · simp only [Bool.not_eq_true] at h
      simp [List.dropWhile, h, headOK]

theorem headOK_dropWhile_eq (l : List Char) (h : headOK l = true) :
    l.dropWhile jsWhitespace = l := by
  cases l with
  | nil => rfl
  | cons c cs =>
    simp only [headOK, Bool.not_eq_true'] at h
    simp [List.dropWhile, h]

theorem headOK_append_left (a bs : List Char) (h : headOK (a ++ bs) = true) :
    headOK a = true := by
  cases a with
  | nil => rfl
  | cons c t => simpa [headOK, List.cons_append] using h

theorem collapse_headOK (l : List Char) :
    headOK (collapseAux true l) = true := by
  induction l with
  | nil => rfl
  | cons c cs ih =>
    by_cases h : jsWhitespace c = true
    · simpa [collapseAux, h] using ih
    · simp only [Bool.not_eq_true] at h
      simp [collapseAux, h, headOK]

theorem collapse_allSpace (b : Bool) (l : List Char) :
    allSpaceWS (collapseAux b l) = true := by
  induction l generalizing b with
  | nil => rfl
  | cons c cs ih =>
    by_cases h : jsWhitespace c = true
    · cases b <;> simp [collapseAux, h, allSpaceWS, List.all_cons] <;>
        simpa [allSpaceWS] using ih true
    · simp only [Bool.not_eq_true] at h
      simp only [collapseAux, h, Bool.false_eq_true, if_false]
      simp only [allSpaceWS, List.all_cons, h, Bool.not_false, Bool.true_or,
        Bool.true_and]
      simpa [allSpaceWS] using ih false

theorem noAdj_cons (x : Char) (Y : List Char)
    (h1 : jsWhitespace x = false ∨ headOK Y = true)
    (h2 : noAdjWS Y = true) : noAdjWS (x :: Y) = true := by
  cases Y with
  | nil => rfl
  | cons d rest =>
    simp only [noAdjWS, Bool.and_eq_true, Bool.or_eq_true, Bool.not_eq_true']
    refine ⟨?_, h2⟩
    rcases h1 with h | h
    · exact Or.inl h
    · simp only [headOK, Bool.not_eq_true'] at h
      exact Or.inr h

theorem noAdj_tail (c : Char) (cs : List Char)
    (h : noAdjWS (c :: cs) = true) : noAdjWS cs = true := by
  cases cs with
  | nil => rfl
  | cons d rest =>
    simp only [noAdjWS, Bool.and_eq_true] at h
    exact h.2

theorem collapse_noAdj (b : Bool) (l : List Char) :
    noAdjWS (collapseAux b l) = true := by
  induction l generalizing b with
  | nil => rfl
  | cons c cs ih =>
    by_cases h : jsWhitespace c = true
    · cases b with
      | true => simpa [collapseAux, h] using ih true
      | false =>
        simp only [collapseAux, h, if_true]
        exact noAdj_cons _ _ (Or.inr (collapse_headOK cs)) (ih true)
    · simp only [Bool.not_eq_true] at h
      simp only [collapseAux, h, Bool.false_eq_true, if_false]
      exact noAdj_cons _ _ (Or.inl h) (ih false)

theorem collapse_flagTrue_of_headOK (l : List Char) (h : headOK l = true) :
    collapseAux true l = collapseAux false l := by
  cases l with
  | nil => rfl
  | cons c cs =>
    simp only [headOK, Bool.not_eq_true'] at h
    simp [collapseAux, h]

theorem collapse_fixed (l : List Char)
    (hall : allSpaceWS l = true) (hadj : noAdjWS l = true) :
    collapseAux false l = l := by
  induction l with
  | nil => rfl
  | cons c cs ih =>
    have hall' : allSpaceWS cs = true := by
      simp only [allSpaceWS, List.all_cons, Bool.and_eq_true] at hall
      exact hall.2
    have hadj' : noAdjWS cs = true := noAdj_tail c cs hadj
    by_cases h : jsWhitespace c = true
    · have hc : c = '\x20' := by
        simp only [allSpaceWS, List.all_cons, Bool.and_eq_true, Bool.or_eq_true,
          Bool.not_eq_true', beq_iff_eq] at hall
        rcases hall.1 with h' | h'
        · rw [h] at h'; cases h'
        · exact h'
      have hhead : headOK cs = true := by
        cases cs with
        | nil => rfl
        | cons d rest =>
          simp only [noAdjWS, Bool.and_eq_true, Bool.or_eq_true,
            Bool.not_eq_true'] at hadj
          rcases hadj.1 with h' | h'
          · rw [h] at h'; cases h'
          · simp [headOK, h']
      simp only [collapseAux, h, if_true]
      rw [collapse_flagTrue_of_headOK cs hhead, ih hall' hadj', hc]
      simp
    · simp only [Bool.not_eq_true] at h
      simp only [collapseAux, h, Bool.false_eq_true, if_false]
      rw [ih hall' hadj']

theorem dropWhile_collapse (b : Bool) (l : List Char) :
    (collapseAux b l).dropWhile jsWhitespace = collapseAux true l := by
  induction l generalizing b with
  | nil => cases b <;> rfl
  | cons c cs ih =>
    by_cases h : jsWhitespace c = true
    · cases b with
      | true => simpa [collapseAux, h] using ih true
      | false =>
        simp only [collapseAux, h, if_true]
        have : jsWhitespace '\x20' = true := by decide
        simpa [List.dropWhile, this] using ih true
    · simp only [Bool.not_eq_true] at h
      simp [collapseAux, h, List.dropWhile, headOK]

theorem noAdj_append_left : ∀ (a bs : List Char),
    noAdjWS (a ++ bs) = true → noAdjWS a = true
  | [], _, _ => rfl
  | [_], _, _ => rfl
  | c :: d :: rest, bs, h => by
    simp only [List.cons_append, noAdjWS, Bool.and_eq_true] at h ⊢
    exact ⟨h.1, noAdj_append_left (d :: rest) bs (by simpa [List.cons_append] using h.2)⟩

theorem revSplit (l : List Char) :
    l = (l.reverse.dropWhile jsWhitespace).reverse ++
        (l.reverse.takeWhile jsWhitespace).reverse := by
  calc l = l.reverse.reverse := (List.reverse_reverse l).symm
  _ = (l.reverse.takeWhile jsWhitespace ++ l.reverse.dropWhile jsWhitespace).reverse := by
      rw [List.takeWhile_append_dropWhile]
  _ = (l.reverse.dropWhile jsWhitespace).reverse ++
      (l.reverse.takeWhile jsWhitespace).reverse := by
      rw [List.reverse_append]

theorem trimList_eq_self (l : List Char)
    (h1 : headOK l = true) (h2 : headOK l.reverse = true) :
    jsTrimList l = l := by
  unfold jsTrimList
  rw [headOK_dropWhile_eq l h1, headOK_dropWhile_eq l.reverse h2,
    List.reverse_reverse]

theorem normalize_idem_list (l : List Char) :
    jsTrimList (collapseAux false (jsTrimList (collapseAux false l))) =
      jsTrimList (collapseAux false l) := by
  have h1 : jsTrimList (collapseAux false l) =
      ((collapseAux true l).reverse.dropWhile jsWhitespace).reverse := by
    unfold jsTrimList
    rw [dropWhile_collapse false l]
  have hYhead : headOK (collapseAux true l) = true := collapse_headOK l
  have hYall : allSpaceWS (collapseAux true l) = true := collapse_allSpace true l
  have hYadj : noAdjWS (collapseAux true l) = true := collapse_noAdj true l
  have hsplit := revSplit (collapseAux true l)
  rw [← h1] at hsplit
  have hZall : allSpaceWS (jsTrimList (collapseAux false l)) = true := by
    rw [hsplit] at hYall
    simp only [allSpaceWS, List.all_append, Bool.and_eq_true] at hYall
    exact hYall.1
  have hZadj : noAdjWS (jsTrimList (collapseAux false l)) = true :=
    noAdj_append_left _ _ (hsplit ▸ hYadj)
  have hZhead : headOK (jsTrimList (collapseAux false l)) = true :=
    headOK_append_left _ _ (hsplit ▸ hYhead)
  have hZrev : headOK (jsTrimList (collapseAux false l)).reverse = true := by
    rw [h1, List.reverse_reverse]
    exact dropWhile_headOK _
  rw [collapse_fixed _ hZall hZadj, trimList_eq_self _ hZhead hZrev]

/-- C9: `normalizeTeamName` (collapse whitespace runs to one space, then
trim) is idempotent, and on `"  A   B  "` yields `"A B"`. -/
theorem normalizeTeamName_spec :
    (∀ x, normalizeTeamName (normalizeTeamName x) = normalizeTeamName x) ∧
    normalizeTeamName "  A   B  " = "A B" := by
  refine ⟨fun x => ?_, by decide⟩
  show String.mk (jsTrimList (collapseAux false (jsTrimList (collapseAux false x.data)))) =
    String.mk (jsTrimList (collapseAux false x.data))
  exact congrArg String.mk (normalize_idem_list x.data)

end SaliBot

namespace SaliBot

/-! ## Guard behavior -/

theorem runGuard_ok (root : Option FsEntry) (files : List (String × String))
    (hw : walkRoot root = .ok files) :
    runGuard root = .ok ((files.map fun fc => scanFileHits fc.1 fc.2).flatten,
      if ((files.map fun fc => scanFileHits fc.1 fc.2).flatten).length > 0
      then 1 else 0) := by
  unfold runGuard
  rw [hw]
  rfl

theorem flatten_map_nil {α β : Type} (xs : List α) (f : α → List β)
    (h : ∀ x ∈ xs, f x = []) : (xs.map f).flatten = [] := by
  induction xs with
  | nil => rfl
  | cons a as ih =>
    rw [List.map_cons, List.flatten_cons, h a (List.mem_cons_self a as),
      ih (fun x hx => h x (List.mem_cons_of_mem a hx)), List.nil_append]

theorem walkList_cons (pfx : String) (e : FsEntry) (es : List FsEntry) :
    walkList pfx (e :: es) =
      (if IGNORE.contains e.name then Except.ok [] else walkEntry pfx e) >>=
        fun hd => walkList pfx es >>= fun tl => Except.ok (hd ++ tl) := by
  rw [walkList]
  split <;> rfl

/-- C3 (counterexample): in the line `"Kansas City Chiefsy"` the nickname
`Chiefs` occurs only inside the longer word `Chiefsy` — neither `\bChiefs\b`
nor `\b49ers\b` matches — yet `BAD_PATTERN` still matches through its
unbounded full-name alternative, and the guard records a hit for the line,
contradicting the claim that such lines produce no `ScanHit`. -/
theorem boundary_overmatch_counterexample :
    containsSubL "Chiefs".data "Kansas City Chiefsy".data = true ∧
    wordBoundedL "Chiefs".data "Kansas City Chiefsy".data = false ∧
    containsSubL "49ers".data "Kansas City Chiefsy".data = false ∧
    wordBoundedL "49ers".data "Kansas City Chiefsy".data = false ∧
    badPatternTest "Kansas City Chiefsy" = true ∧
    runGuard (some (.dir "repo" true [.file "a.md" "Kansas City Chiefsy"])) =
      .ok ([{ path := "a.md", lineNo := 1, text := "Kansas City Chiefsy" }], 1) :=
  ⟨by decide, by decide, by decide, by decide, by decide, by rfl⟩

/-- C3 (amended): the word-bounded nickname alternatives never over-match by
themselves — a line with no word-bounded occurrence of `Chiefs` or `49ers`
and without any of the three plain substring alternatives is clean — and a
tree whose single file's single line holds a nickname as a standalone word
yields exactly one `ScanHit` for that file and line and exit status 1. -/
theorem boundary_sensitivity_spec :
    (∀ line : List Char,
      wordBoundedL "Chiefs".data line = false →
      wordBoundedL "49ers".data line = false →
      containsSubL "Kansas City Chiefs".data line = false →
      containsSubL "San Francisco 49ers".data line = false →
      containsSubL "superbowlTeams".data line = false →
      badPatternTestL line = false) ∧
    runGuard (some (.dir "repo" true [.file "note.md" "Go Chiefs today"])) =
      .ok ([{ path := "note.md", lineNo := 1, text := "Go Chiefs today" }], 1) ∧
    badPatternTest "xChiefsy stuff" = false ∧
    badPatternTest "x49ersx" = false := by
  refine ⟨fun line h1 h2 h3 h4 h5 => ?_, by rfl, by decide, by decide⟩
  unfold badPatternTestL
  rw [h1, h2, h3, h4, h5]
  rfl

/-- C3 (witness): the no-over-match statement applied to the concrete line
`"xChiefsy stuff"`. -/
theorem boundary_sensitivity_spec_witness :
    badPatternTestL "xChiefsy stuff".data = false :=
  boundary_sensitivity_spec.1 "xChiefsy stuff".data (by decide) (by decide)
    (by decide) (by decide) (by decide)

/-- C5 (counterexample): an existing but unreadable root directory is not
treated as nothing-to-scan: `readdirSync` throws and the guard dies on the
error path instead of succeeding with zero hits. -/
theorem unreadable_root_counterexample :
    runGuard (some (.dir "repo" false [])) = .error () ∧
    runGuard (some (.dir "repo" false [])) ≠ .ok ([], 0) :=
  ⟨rfl, fun h => Except.noConfusion h⟩

/-- C5 (amended): a missing root is treated as nothing to scan (zero hits,
success exit); a walk that yields no qualifying hits — in particular an
empty root directory or a tree whose files all fall outside the filter —
also succeeds with zero hits; but an existing, unreadable root directory
makes the guard raise instead of succeeding. -/
theorem missing_root_spec :
    runGuard none = .ok ([], 0) ∧
    (∀ root files, walkRoot root = .ok files →
      (∀ fc ∈ files, scanFileHits fc.1 fc.2 = []) → runGuard root = .ok ([], 0)) ∧
    runGuard (some (.dir "repo" true [])) = .ok ([], 0) ∧
    (∀ n es, runGuard (some (.dir n false es)) = .error ()) := by
  refine ⟨rfl, fun root files hw hall => ?_, rfl, fun n es => rfl⟩
  rw [runGuard_ok root files hw, flatten_map_nil files _ hall]
  rfl

/-- C5 (witness): the nothing-qualifies statement applied to a tree holding
one non-text file full of legacy strings. -/
theorem missing_root_spec_witness :
    runGuard (some (.dir "r" true [.file "data.bin" "Kansas City Chiefs"])) =
      .ok ([], 0) :=
  missing_root_spec.2.1 (some (.dir "r" true [.file "data.bin" "Kansas City Chiefs"]))
    [("data.bin", "Kansas City Chiefs")] (by rfl)
    (by
      intro fc hfc
      rw [List.mem_singleton.mp hfc]
      decide)

/-- C6: the guard's file filter is sound: an entry whose name is in `IGNORE`
is skipped entirely — the walk of any directory listing containing it equals
the walk without it, whatever that entry contains — and a file whose
lower-cased extension is non-empty and outside the text allowlist is never
scanned, so it contributes zero hits; concretely, a legacy string inside
`node_modules` or inside a `.db` file produces no hits and a success exit. -/
theorem filter_sound_spec :
    (∀ pfx (e : FsEntry) es₁ es₂, IGNORE.contains e.name = true →
      walkList pfx (es₁ ++ e :: es₂) = walkList pfx (es₁ ++ es₂)) ∧
    (∀ rel content, isTextExt (jsToLower (extname rel)) = false →
      scanFileHits rel content = []) ∧
    runGuard (some (.dir "repo" true
      [.dir "node_modules" true [.file "a.md" "Kansas City Chiefs"]])) = .ok ([], 0) ∧
    runGuard (some (.dir "repo" true [.file "a.db" "Kansas City Chiefs"])) =
      .ok ([], 0) := by
  refine ⟨fun pfx e es₁ es₂ hig => ?_, fun rel content hext => ?_, by rfl, by rfl⟩
  · induction es₁ with
    | nil =>
      rw [List.nil_append, List.nil_append, walkList_cons, hig]
      simp only [if_true]
      cases hx : walkList pfx es₂ with
      | error e2 => rfl
      | ok v => rfl
    | cons a as ih =>
      rw [List.cons_append, List.cons_append, walkList_cons, walkList_cons, ih]
  · unfold scanFileHits
    cases h : jsStartsWith rel "scripts/guard-superbowl-strings"
    · simp [h, hext]
    · simp [h]

/-- C6 (witness): skipping an ignored directory and a non-text file, at
concrete inputs. -/
theorem filter_sound_spec_witness :
    walkList "" ([] ++ FsEntry.dir "node_modules" true
        [FsEntry.file "x.md" "Kansas City Chiefs"] :: [FsEntry.file "a.md" "hello"]) =
      walkList "" ([] ++ [FsEntry.file "a.md" "hello"]) ∧
    scanFileHits "x.db" "Kansas City Chiefs" = [] :=
  ⟨filter_sound_spec.1 ""
      (FsEntry.dir "node_modules" true [FsEntry.file "x.md" "Kansas City Chiefs"])
      [] [FsEntry.file "a.md" "hello"] (by decide),
   filter_sound_spec.2.1 "x.db" "Kansas City Chiefs" (by decide)⟩

end SaliBot

namespace SaliBot

theorem mem_enum_get {α : Type} (l : List α) (i : Nat) (x : α)
    (hp : (i, x) ∈ l.enum) : l[i]? = some x := by
  have h := List.mem_enumFrom (show (i, x) ∈ List.enumFrom 0 l from hp)
  obtain ⟨-, hlt, hx⟩ := h
  rw [List.getElem?_eq_some_iff]
  refine ⟨by simpa using hlt, ?_⟩
  simpa [Nat.sub_zero] using hx.symm

theorem scanFileHits_mem (rel content : String) (h : ScanHit)
    (hm : h ∈ scanFileHits rel content) :
    ∃ i line, (jsLines content)[i]? = some line ∧ badPatternTestL line = true ∧
      h = { path := rel, lineNo := i + 1, text := String.mk (jsTrimList line) } := by
  unfold scanFileHits at hm
  by_cases h1 : jsStartsWith rel "scripts/guard-superbowl-strings" = true
  · rw [if_pos h1] at hm
    simp at hm
  · rw [if_neg h1] at hm
    by_cases h2 : isTextExt (jsToLower (extname rel)) = true
    · rw [if_pos h2] at hm
      obtain ⟨p, hp, hg⟩ := List.mem_filterMap.mp hm
      obtain ⟨i, line⟩ := p
      dsimp only at hg
      by_cases hb : badPatternTestL line = true
      · rw [if_pos hb] at hg
        exact ⟨i, line, mem_enum_get _ i line hp, hb, (Option.some.inj hg).symm⟩
      · rw [if_neg hb] at hg
        cases hg
    · rw [if_neg h2] at hm
      simp at hm

/-- C4: whenever the walk succeeds, the guard aggregates the hits of every
visited file before reporting (no early termination on the first hit), each
recorded hit comes from a matching line and carries a 1-based line number
and the trimmed line text, the report lines are `path:lineNumber:text`, and
the exit status is 1 exactly when at least one hit was recorded and 0
otherwise. -/
theorem aggregate_report_spec :
    (∀ root files, walkRoot root = .ok files →
      ∃ hits : List ScanHit,
        runGuard root = .ok (hits, if hits.length > 0 then 1 else 0) ∧
        hits = (files.map fun fc => scanFileHits fc.1 fc.2).flatten ∧
        (∀ fc ∈ files, ∀ h ∈ scanFileHits fc.1 fc.2, h ∈ hits)) ∧
    (∀ rel content h, h ∈ scanFileHits rel content →
      ∃ i line, (jsLines content)[i]? = some line ∧ badPatternTestL line = true ∧
        h = { path := rel, lineNo := i + 1, text := String.mk (jsTrimList line) }) ∧
    (∀ hits, guardErrorLines hits =
      hits.map fun h => h.path ++ ":" ++ toString h.lineNo ++ ":" ++ h.text) := by
  refine ⟨fun root files hw => ?_, scanFileHits_mem, fun hits => rfl⟩
  refine ⟨_, runGuard_ok root files hw, rfl, fun fc hfc h hh => ?_⟩
  exact List.mem_flatten.mpr
    ⟨scanFileHits fc.1 fc.2, List.mem_map_of_mem _ hfc, hh⟩

/-- C4 (witness): aggregation across a two-file tree, each file contributing
one hit. -/
theorem aggregate_report_spec_witness :
    ∃ hits : List ScanHit,
      runGuard (some (.dir "repo" true
        [.file "a.md" "Go Chiefs today", .file "b.ts" "x superbowlTeams y"])) =
        .ok (hits, if hits.length > 0 then 1 else 0) ∧
      hits = (([("a.md", "Go Chiefs today"), ("b.ts", "x superbowlTeams y")] :
          List (String × String)).map fun fc => scanFileHits fc.1 fc.2).flatten ∧
      (∀ fc ∈ ([("a.md", "Go Chiefs today"), ("b.ts", "x superbowlTeams y")] :
          List (String × String)),
        ∀ h ∈ scanFileHits fc.1 fc.2, h ∈ hits) :=
  aggregate_report_spec.1
    (some (.dir "repo" true
      [.file "a.md" "Go Chiefs today", .file "b.ts" "x superbowlTeams y"]))
    [("a.md", "Go Chiefs today"), ("b.ts", "x superbowlTeams y")] (by rfl)

end SaliBot

namespace SaliBot

/-! ## Equivalence and divergence of the two guard entry points -/

theorem stripCR_cons (c : Char) (cs : List Char) (h : c ≠ '\r') :
    stripCR (c :: cs) = c :: stripCR cs := by
  rw [stripCR.eq_def]
  split <;> simp_all

theorem stripCR_id (l : List Char) (h : l.contains '\r' = false) :
    stripCR l = l := by
  induction l with
  | nil => rfl
  | cons c cs ih =>
    rw [List.contains_cons, Bool.or_eq_false_iff] at h
    have hc : c ≠ '\r' := by
      intro hcr
      rw [hcr] at h
      simp at h
    rw [stripCR_cons c cs hc, ih h.2]

theorem map_filterMap_congr {α β γ : Type} (l : List α) (f g : α → Option β)
    (m : β → γ) (h : ∀ a ∈ l, (f a).map m = (g a).map m) :
    (l.filterMap f).map m = (l.filterMap g).map m := by
  induction l with
  | nil => rfl
  | cons a as ih =>
    have ha := h a (List.mem_cons_self a as)
    have ih' := ih (fun x hx => h x (List.mem_cons_of_mem a hx))
    rw [List.filterMap_cons, List.filterMap_cons]
    cases hf : f a with
    | none =>
      cases hg : g a with
      | none => exact ih'
      | some b => rw [hf, hg] at ha; simp at ha
    | some b =>
      cases hg : g a with
      | none => rw [hf, hg] at ha; simp at ha
      | some b2 =>
        rw [hf, hg] at ha
        have hb : m b = m b2 := by simpa using ha
        rw [List.map_cons, List.map_cons, hb, ih']

theorem scan_loc_agree (rel content : String)
    (htext : isTextExt (jsToLower (extname rel)) = true)
    (hself : jsStartsWith rel "scripts/guard-superbowl-strings" = false)
    (hcr : content.data.contains '\r' = false) :
    (scanFileHits rel content).map ScanHit.loc =
      (rgScanFile rel content).map ScanHit.loc := by
  unfold scanFileHits rgScanFile jsLines
  rw [if_neg (by simp [hself]), if_pos htext, stripCR_id _ hcr]
  apply map_filterMap_congr
  intro p hp
  by_cases hb : badPatternTestL p.2 = true
  · simp [hb, ScanHit.loc]
  · simp [hb]

theorem plainEntry_not_ignored (pfx : String) (e : FsEntry)
    (h : plainEntry pfx e = true) :
    IGNORE.contains e.name = false ∧ jsStartsWith e.name "." = false := by
  cases e with
  | file n c =>
    simp only [plainEntry, Bool.and_eq_true, Bool.not_eq_true'] at h
    exact ⟨h.1.1.1.1, h.1.1.1.2⟩
  | dir n r es =>
    simp only [plainEntry, Bool.and_eq_true, Bool.not_eq_true'] at h
    exact ⟨h.1.1.1, h.1.1.2⟩

mutual
theorem walkEntry_plain : ∀ (pfx : String) (e : FsEntry),
    plainEntry pfx e = true → walkEntry pfx e = .ok (rgWalkEntry pfx e)
  | _, .file n c, _ => rfl
  | pfx, .dir n r es, h => by
    simp only [plainEntry, Bool.and_eq_true] at h
    obtain ⟨⟨⟨-, -⟩, hr⟩, hp⟩ := h
    subst hr
    simp only [walkEntry, rgWalkEntry, if_true]
    exact walkList_plain (pfx ++ n ++ "/") es hp

theorem walkList_plain : ∀ (pfx : String) (es : List FsEntry),
    plainList pfx es = true → walkList pfx es = .ok (rgWalkList pfx es)
  | _, [], _ => rfl
  | pfx, e :: es, h => by
    simp only [plainList, Bool.and_eq_true] at h
    obtain ⟨he, hes⟩ := h
    obtain ⟨hig, hhid⟩ := plainEntry_not_ignored pfx e he
    rw [walkList_cons, hig]
    simp only [Bool.false_eq_true, if_false]
    rw [walkEntry_plain pfx e he, walkList_plain pfx es hes]
    rw [rgWalkList, hhid]
    simp only [Bool.false_eq_true, if_false]
    rfl
end

mutual
theorem rgWalkEntry_plain_files : ∀ (pfx : String) (e : FsEntry),
    plainEntry pfx e = true → ∀ fc ∈ rgWalkEntry pfx e,
      isTextExt (jsToLower (extname fc.1)) = true ∧
      jsStartsWith fc.1 "scripts/guard-superbowl-strings" = false ∧
      fc.2.data.contains '\r' = false
  | pfx, .file n c, h => by
    intro fc hfc
    simp only [rgWalkEntry, List.mem_singleton] at hfc
    subst hfc
    simp only [plainEntry, Bool.and_eq_true, Bool.not_eq_true'] at h
    exact ⟨h.1.1.2, h.1.2, h.2⟩
  | pfx, .dir n r es, h => by
    intro fc hfc
    simp only [plainEntry, Bool.and_eq_true] at h
    obtain ⟨⟨⟨-, -⟩, hr⟩, hp⟩ := h
    subst hr
    simp only [rgWalkEntry, if_true] at hfc
    exact rgWalkList_plain_files (pfx ++ n ++ "/") es hp fc hfc

theorem rgWalkList_plain_files : ∀ (pfx : String) (es : List FsEntry),
    plainList pfx es = true → ∀ fc ∈ rgWalkList pfx es,
      isTextExt (jsToLower (extname fc.1)) = true ∧
      jsStartsWith fc.1 "scripts/guard-superbowl-strings" = false ∧
      fc.2.data.contains '\r' = false
  | _, [], _ => by
    intro fc hfc
    simp [rgWalkList] at hfc
  | pfx, e :: es, h => by
    intro fc hfc
    simp only [plainList, Bool.and_eq_true] at h
    obtain ⟨he, hes⟩ := h
    obtain ⟨-, hhid⟩ := plainEntry_not_ignored pfx e he
    rw [rgWalkList, hhid] at hfc
    simp only [Bool.false_eq_true, if_false] at hfc
    rw [List.mem_append] at hfc
    cases hfc with
    | inl h1 => exact rgWalkEntry_plain_files pfx e he fc h1
    | inr h2 => exact rgWalkList_plain_files pfx es hes fc h2
end

/-- C1 (counterexample): on a tree whose only file is `watchlist.json` —
skipped by the JS guard's `IGNORE` set but scanned by ripgrep — the two
entry points disagree: the JS guard records no findings and exits 0 while
the shell guard records one finding and exits 1, so the two are not
behaviorally identical on every tree. -/
theorem guards_divergence_counterexample :
    runGuard (some (.dir "repo" true [.file "watchlist.json" "Chiefs win"])) =
      .ok ([], 0) ∧
    shGuard (some (.dir "repo" true [.file "watchlist.json" "Chiefs win"])) =
      ([{ path := "watchlist.json", lineNo := 1, text := "Chiefs win" }], 1) ∧
    (shGuard (some (.dir "repo" true [.file "watchlist.json" "Chiefs win"]))).2 ≠
      (0 : Nat) :=
  ⟨by rfl, by rfl, by decide⟩

/-- C1 (amended): the two entry points apply the same denylist pattern line
by line, and on every tree where neither side's file filter can fire — no
`IGNORE` names, no hidden names, all directories readable, only
text-allowlisted extensions, nothing under the guard's self-exclusion
prefix, carriage-return-free contents — they report hits at exactly the
same file/line locations and exit with the same status.  They are not
behaviorally identical in general: the `IGNORE` set, extension allowlist
and self-exclusion exist only in the JS guard, hidden-file skipping only in
ripgrep, and the reported text differs (trimmed versus raw). -/
theorem guards_conditional_equiv (root : Option FsEntry)
    (h : plainRoot root = true) :
    ∃ jsHits shHits : List ScanHit,
      runGuard root = .ok (jsHits, (shGuard root).2) ∧
      shGuard root = (shHits, if shHits.length > 0 then 1 else 0) ∧
      jsHits.map ScanHit.loc = shHits.map ScanHit.loc := by
  cases root with
  | none => exact ⟨[], [], rfl, rfl, rfl⟩
  | some e =>
    cases e with
    | file n c => simp [plainRoot] at h
    | dir n r es =>
      simp only [plainRoot, Bool.and_eq_true] at h
      obtain ⟨hr, hp⟩ := h
      subst hr
      have hwalk : walkRoot (some (.dir n true es)) = .ok (rgWalkList "" es) := by
        simp only [walkRoot, if_true]
        exact walkList_plain "" es hp
      have hjs := runGuard_ok _ _ hwalk
      have hsh : shGuard (some (.dir n true es)) =
          (((rgWalkList "" es).map fun fc => rgScanFile fc.1 fc.2).flatten,
           if (((rgWalkList "" es).map fun fc => rgScanFile fc.1 fc.2).flatten).length > 0
           then 1 else 0) := by
        unfold shGuard rgWalkRoot
        simp only [if_true]
      have hmap :
          (((rgWalkList "" es).map fun fc => scanFileHits fc.1 fc.2).flatten).map ScanHit.loc =
          (((rgWalkList "" es).map fun fc => rgScanFile fc.1 fc.2).flatten).map ScanHit.loc := by
        rw [List.map_flatten, List.map_flatten, List.map_map, List.map_map]
        congr 1
        apply List.map_congr_left
        intro fc hfc
        obtain ⟨ht, hs, hc⟩ := rgWalkList_plain_files "" es hp fc hfc
        exact scan_loc_agree fc.1 fc.2 ht hs hc
      have hlen :
          (((rgWalkList "" es).map fun fc => scanFileHits fc.1 fc.2).flatten).length =
          (((rgWalkList "" es).map fun fc => rgScanFile fc.1 fc.2).flatten).length := by
        have h2 := congrArg List.length hmap
        rw [List.length_map, List.length_map] at h2
        exact h2
      refine ⟨_, _, ?_, hsh, hmap⟩
      rw [hjs, hsh, hlen]

/-- C1 (witness): guard agreement at a concrete plain tree with one hit. -/
theorem guards_conditional_equiv_witness :
    ∃ jsHits shHits : List ScanHit,
      runGuard (some (.dir "repo" true [.file "a.md" "Go Chiefs today"])) =
        .ok (jsHits,
          (shGuard (some (.dir "repo" true [.file "a.md" "Go Chiefs today"]))).2) ∧
      shGuard (some (.dir "repo" true [.file "a.md" "Go Chiefs today"])) =
        (shHits, if shHits.length > 0 then 1 else 0) ∧
      jsHits.map ScanHit.loc = shHits.map ScanHit.loc :=
  guards_conditional_equiv
    (some (.dir "repo" true [.file "a.md" "Go Chiefs today"])) (by decide)

end SaliBot
